import Mathlib

/-!
Verification of the Python-Military-Symbols core against its natural-language
specification.  The repository sources provide the package facade
(military_symbol/__init__.py) and the nested-path store (json_filesystem.py);
the codec, composer and resolver modules are not among the sources, so those
parts are modelled from the specification and marked as such in their doc
comments.
-/

/- ========================================================================
   Part 1: json_filesystem.py — the nested-path store (JSONFilesystem).
   ======================================================================== -/

/-- A JSON tree as stored in JSONFilesystem.json: objects are ordered
association lists from string keys to subtrees (mirroring Python dict
insertion order), leaves hold contents of type α. -/
inductive JTree (α : Type) where
  | obj : List (String × JTree α) → JTree α
  | leaf : α → JTree α

/-- Lookup of a key in a Python dict, modelled on the ordered association
list: the first binding for the key wins. -/
def lookupKey {α : Type} : List (String × JTree α) → String → Option (JTree α)
  | [], _ => none
  | (k, v) :: rest, key => if k = key then some v else lookupKey rest key

/-- Assignment `d[key] = val` on a Python dict: it replaces an existing binding
in place, otherwise appends the new binding at the end. -/
def updateKey {α : Type} : List (String × JTree α) → String → JTree α → List (String × JTree α)
  | [], key, val => [(key, val)]
  | (k, v) :: rest, key, val =>
      if k = key then (k, val) :: rest else (k, v) :: updateKey rest key val

/-- The traversal loop of JSONFilesystem.set_contents_at_path over the
intermediate path segments (path_list[:-1] in the source), translated from
the Python: the cursor descends into an existing key, creates an empty dict
and descends when create_if_nonexistent is set, and otherwise prints an
error message and stays at the current node; after the loop the final
segment is assigned at the cursor.  Subscripting a non-dict value raises a
TypeError in Python, modelled as Except.error; the returned Nat counts the
error messages printed. -/
def setAux {α : Type} (create : Bool) (contents : α) :
    List String → String → List (String × JTree α) →
    Except String (List (String × JTree α) × Nat)
  | [], lastSeg, node =>
      Except.ok (updateKey node lastSeg (JTree.leaf contents), 0)
  | seg :: rest, lastSeg, node =>
      match lookupKey node seg with
      | some (JTree.obj child) =>
          (setAux create contents rest lastSeg child).map
            (fun r => (updateKey node seg (JTree.obj r.1), r.2))
      | some (JTree.leaf _) => Except.error "TypeError"
      | none =>
          if create then
            (setAux create contents rest lastSeg []).map
              (fun r => (updateKey node seg (JTree.obj r.1), r.2))
          else
            (setAux create contents rest lastSeg node).map
              (fun r => (r.1, r.2 + 1))

/-- JSONFilesystem.set_contents_at_path, with the path already split into
normalized segments: os.path.normpath(path).split(os.sep) in the source
always yields a nonempty list, given here as front ++ [lastSeg]. -/
def set_contents_at_path {α : Type} (root : List (String × JTree α))
    (front : List String) (lastSeg : String) (contents : α) (create : Bool) :
    Except String (List (String × JTree α) × Nat) :=
  setAux create contents front lastSeg root

/-- JSONFilesystem.get_contents_at_path: the method body in the source is a
bare `pass` statement, so the call always returns None irrespective of the
store and the path. -/
def get_contents_at_path {α : Type} (root : List (String × JTree α))
    (path : List String) : Option α :=
  none

/-- The traversal with create_if_nonexistent false never meets a leaf at an
existing intermediate segment (every existing segment it enters holds a
nested object); under this condition the Python loop cannot raise. -/
def cleanTraversal {α : Type} : List String → List (String × JTree α) → Bool
  | [], _ => true
  | seg :: rest, node =>
      match lookupKey node seg with
      | some (JTree.obj child) => cleanTraversal rest child
      | some (JTree.leaf _) => false
      | none => cleanTraversal rest node

/-- Number of intermediate segments the create_if_nonexistent=false traversal
finds missing and skips (each one producing one printed error message). -/
def skippedCount {α : Type} : List String → List (String × JTree α) → Nat
  | [], _ => 0
  | seg :: rest, node =>
      match lookupKey node seg with
      | some (JTree.obj child) => skippedCount rest child
      | some (JTree.leaf _) => 0
      | none => skippedCount rest node + 1

/-- Specification-side description of the non-atomic write performed by
set_contents_at_path with create_if_nonexistent=false: descend only through
existing intermediate segments, skip missing ones without descending, and
bind the final segment at the node the traversal reached. -/
def writeAtReached {α : Type} (contents : α) (lastSeg : String) :
    List String → List (String × JTree α) → List (String × JTree α)
  | [], node => updateKey node lastSeg (JTree.leaf contents)
  | seg :: rest, node =>
      match lookupKey node seg with
      | some (JTree.obj child) =>
          updateKey node seg (JTree.obj (writeAtReached contents lastSeg rest child))
      | some (JTree.leaf _) => node
      | none => writeAtReached contents lastSeg rest node

/- ========================================================================
   Part 2: military_symbol/__init__.py — the package facade.
   The symbol constructors (MilitarySymbol.create_from_sidc from
   individual_symbol.py, name_to_sidc.name_to_symbol) are not among the
   sources; the facade only checks their result for None, so they are
   passed in as parameters returning Option. -/

/-- get_symbol_svg_string_from_sidc from military_symbol/__init__.py:
construct the symbol from the SIDC, and return its SVG string, or the empty
string when the constructed symbol is None. -/
def get_symbol_svg_string_from_sidc {Sym : Type}
    (create_from_sidc : String → Option Sym) (get_svg : Sym → Int → String)
    (sidc : String) (bounding_padding : Int) : String :=
  match create_from_sidc sidc with
  | some symbol => get_svg symbol bounding_padding
  | none => ""

/-- get_symbol_svg_string_from_name from military_symbol/__init__.py:
construct the symbol from the free-text name, and return its SVG string, or
the empty string when the constructed symbol is None. -/
def get_symbol_svg_string_from_name {Sym : Type}
    (name_to_symbol : String → Option Sym) (get_svg : Sym → Int → String)
    (name_string : String) (bounding_padding : Int) : String :=
  match name_to_symbol name_string with
  | some symbol => get_svg symbol bounding_padding
  | none => ""

/- ========================================================================
   Part 3: the core pipeline (codec, composer, resolver), modelled from the
   specification since symbol_schema.py, individual_symbol.py,
   name_to_sidc.py and symbol_template.py are not among the sources. -/

/-- Modelled from the spec: the DecodeError taxonomy of the error-handling
design — BadLength, BadAlphabet, or UnknownCode tagged with the field. -/
inductive DecodeError where
  | BadLength : DecodeError
  | BadAlphabet : DecodeError
  | UnknownCode : String → DecodeError
deriving DecidableEq

/-- Modelled from the spec: the EncodeError taxonomy — UnknownCode tagged
with the field whose value is absent from the schema enumeration. -/
inductive EncodeError where
  | UnknownCode : String → EncodeError
deriving DecidableEq

/-- Modelled from the spec: a non-fatal Diagnostic with a field and a note,
collected during compose and resolve. -/
structure Diagnostic where
  field : String
  note : String
deriving DecidableEq

/-- An axis-aligned box with integer pixel coordinates, used for asset
extents and the output canvas. -/
structure Box where
  minX : Int
  minY : Int
  maxX : Int
  maxY : Int
deriving DecidableEq

/-- Union of two axis-aligned boxes: the smallest box containing both. -/
def Box.union (a b : Box) : Box :=
  ⟨min a.minX b.minX, min a.minY b.minY, max a.maxX b.maxX, max a.maxY b.maxY⟩

/-- Expansion of a box by p pixels on each side. -/
def Box.expand (b : Box) (p : Int) : Box :=
  ⟨b.minX - p, b.minY - p, b.maxX + p, b.maxY + p⟩

/-- Translation of a box by an offset. -/
def Box.translate (b : Box) (dx dy : Int) : Box :=
  ⟨b.minX + dx, b.minY + dy, b.maxX + dx, b.maxY + dy⟩

/-- Horizontal extent of a box. -/
def Box.width (b : Box) : Int := b.maxX - b.minX

/-- Vertical extent of a box. -/
def Box.height (b : Box) : Int := b.maxY - b.minY

/-- Containment of box b inside box a. -/
def Box.containsBox (a b : Box) : Prop :=
  a.minX ≤ b.minX ∧ a.minY ≤ b.minY ∧ b.maxX ≤ a.maxX ∧ b.maxY ≤ a.maxY

/-- Modelled from the spec: a GraphicAsset — a reusable vector fragment
reduced to its geometric extent, plus its schema-declared anchor offset
relative to the symbol-set origin, and a z-order hint. -/
structure GraphicAsset where
  extent : Box
  anchorX : Int
  anchorY : Int
  z : Int

/-- Placement of an asset: translate its extent by its anchor offset,
giving its absolute geometric extent on the canvas. -/
def placeAsset (a : GraphicAsset) : Box :=
  a.extent.translate a.anchorX a.anchorY

/-- Modelled from the spec: one field definition of the FieldSchema — a
semantic name, a fixed character span given by its width (spans are
contiguous in schema order and together cover the fixed code length), the
allowed alphabet for the span, the enumeration of valid codes, the graphic
assets for each valid code, the documented neutral/default assets used when
a code fails lookup, the default code used by the resolver for an
unspecified field, and the per-field natural-language vocabulary. -/
structure FieldDef where
  name : String
  width : Nat
  alphabet : List Char
  codes : List (List Char)
  assetsOf : List Char → List GraphicAsset
  defaultAssets : List GraphicAsset
  defaultCode : List Char
  vocab : List (String × List Char)

/-- Modelled from the spec: the SchemaIndex view needed by the core — the
ordered field definitions of the schema version in use, and the schema's
fixed canonical canvas. -/
structure Schema where
  fields : List FieldDef
  canonicalCanvas : Box

/-- The fixed code length of the schema version: the sum of its field span
widths, since spans are contiguous and cover the full code. -/
def Schema.totalLength (sch : Schema) : Nat :=
  (sch.fields.map (fun f => f.width)).sum

/-- A FieldRecord: field name to decoded code value, in schema order with
all fields present, as produced by decode and resolve. -/
abbrev FieldRecord : Type := List (String × List Char)

/-- Per-field validation of one decoded chunk, modelled from the spec:
characters outside the allowed alphabet give BadAlphabet; a code absent
from the field's enumeration gives UnknownCode tagged with the field. -/
def decodeField (f : FieldDef) (chunk : List Char) : Except DecodeError (List Char) :=
  if chunk.all (fun c => decide (c ∈ f.alphabet)) then
    if chunk ∈ f.codes then Except.ok chunk
    else Except.error (DecodeError.UnknownCode f.name)
  else Except.error DecodeError.BadAlphabet

/-- Positional decoding, modelled from the spec: fixed-width slicing of the
code string into per-field chunks in schema order, each validated purely
per-field (no cross-field validation). -/
def decodeFields : List FieldDef → List Char → Except DecodeError FieldRecord
  | [], _ => Except.ok []
  | f :: fs, cs =>
      match decodeField f (cs.take f.width) with
      | Except.error e => Except.error e
      | Except.ok code =>
          (decodeFields fs (cs.drop f.width)).map (fun r => (f.name, code) :: r)

/-- SIDCCodec.decode, modelled from the spec: a string whose length is not
the schema version's fixed length fails with BadLength; otherwise the
string is sliced positionally and each field validated. -/
def decode (sch : Schema) (s : List Char) : Except DecodeError FieldRecord :=
  if s.length = sch.totalLength then decodeFields sch.fields s
  else Except.error DecodeError.BadLength

/-- Encoding of the record values against the schema fields in order,
modelled from the spec: each value must be in its field's enumeration
(otherwise EncodeError.UnknownCode — encode never silently drops data), and
the values are concatenated in schema order. -/
def encodeFields : List FieldDef → FieldRecord → Except EncodeError (List Char)
  | [], _ => Except.ok []
  | f :: fs, r =>
      match r with
      | [] => Except.error (EncodeError.UnknownCode f.name)
      | (_, v) :: rest =>
          if v ∈ f.codes then (encodeFields fs rest).map (fun t => v ++ t)
          else Except.error (EncodeError.UnknownCode f.name)

/-- SIDCCodec.encode, modelled from the spec: a field record back to the
canonical SIDC string. -/
def encode (sch : Schema) (r : FieldRecord) : Except EncodeError (List Char) :=
  encodeFields sch.fields r

/-- The per-field chunks of a code string: each schema field paired with
the fixed-width slice of the string at its span. -/
def fieldChunks : List FieldDef → List Char → List (FieldDef × List Char)
  | [], _ => []
  | f :: fs, cs => (f, cs.take f.width) :: fieldChunks fs (cs.drop f.width)

/-- Modelled from the spec: per-field asset resolution inside the composer —
a code in the field's enumeration resolves to its declared assets; a code
that fails lookup degrades to the field's documented neutral/default assets
and surfaces a non-fatal diagnostic, never a hard failure. -/
def resolveFieldAssets (f : FieldDef) (code : List Char) :
    List GraphicAsset × List Diagnostic :=
  if code ∈ f.codes then (f.assetsOf code, [])
  else (f.defaultAssets, [⟨f.name, "unknown code; neutral default asset substituted"⟩])

/-- Modelled from the spec: place the assets of each field of the record in
schema order using their schema-declared anchors, collecting the absolute
extents of the placed assets together with the non-fatal diagnostics. -/
def placeFields : List FieldDef → FieldRecord → List Box × List Diagnostic
  | [], _ => ([], [])
  | _ :: _, [] => ([], [])
  | f :: fs, (_, code) :: rest =>
      let ad := resolveFieldAssets f code
      let tl := placeFields fs rest
      (ad.1.map placeAsset ++ tl.1, ad.2 ++ tl.2)

/-- Union bounding box of a list of placed extents (none when no asset was
placed). -/
def unionBoxes : List Box → Option Box
  | [] => none
  | b :: bs => some (bs.foldl Box.union b)

/-- The canonical SIDC string carried by a ComposedSymbol: the record's code
values concatenated in schema order. -/
def recordSidc (r : FieldRecord) : List Char :=
  (r.map (fun p => p.2)).flatten

/-- Modelled from the spec: a ComposedSymbol — the ordered placed asset
extents, the output canvas, the canonical SIDC string of the record, and
the non-fatal diagnostics collected while composing. -/
structure ComposedSymbol where
  placed : List Box
  canvas : Box
  sidc : List Char
  diagnostics : List Diagnostic

/-- SymbolComposer.compose, modelled from the spec: place every field's
assets, compute the union bounding box of the placed extents, and crop the
canvas to that box expanded by paddingPx on each side when paddingPx >= 0;
when paddingPx < 0 skip cropping and use the schema's fixed canonical
canvas unmodified (also used when nothing was placed, so the canvas is
always well defined). -/
def compose (sch : Schema) (r : FieldRecord) (paddingPx : Int) : ComposedSymbol :=
  let pd := placeFields sch.fields r
  let canvas :=
    if 0 ≤ paddingPx then
      match unionBoxes pd.1 with
      | some b => b.expand paddingPx
      | none => sch.canonicalCanvas
    else sch.canonicalCanvas
  ⟨pd.1, canvas, recordSidc r, pd.2⟩

/-- The record obtained by pure positional slicing (no enumeration check),
used on the compose path where unknown codes degrade instead of failing. -/
def sliceRecord : List FieldDef → List Char → FieldRecord
  | [], _ => []
  | f :: fs, cs => (f.name, cs.take f.width) :: sliceRecord fs (cs.drop f.width)

/-- Modelled from the spec: composeFromSIDC — structural errors (length,
alphabet) are always surfaced as DecodeError, but a syntactically decodable
SIDC always composes: unknown codes degrade to default assets inside
compose instead of aborting. -/
def composeFromSIDC (sch : Schema) (s : List Char) (paddingPx : Int) :
    Except DecodeError ComposedSymbol :=
  if s.length = sch.totalLength then
    if (fieldChunks sch.fields s).all
        (fun p => p.2.all (fun c => decide (c ∈ p.1.alphabet))) then
      Except.ok (compose sch (sliceRecord sch.fields s) paddingPx)
    else Except.error DecodeError.BadAlphabet
  else Except.error DecodeError.BadLength

/-- Modelled from the spec: a TemplateSet entry — a name, free-text
synonyms, and a partial field record of overrides. -/
structure Template where
  name : String
  synonyms : List String
  overrides : List (String × List Char)

/-- Generic association-list lookup for string-keyed pairs (field records
and template overrides). -/
def alookup {β : Type} : List (String × β) → String → Option β
  | [], _ => none
  | (k, v) :: rest, key => if k = key then some v else alookup rest key

/-- ASCII case-folding of one character, used by tokenization. -/
def asciiLower (c : Char) : Char :=
  if 'A' ≤ c ∧ c ≤ 'Z' then Char.ofNat (c.toNat + 32) else c

/-- Splitting a case-folded character stream into whitespace-separated
tokens; acc accumulates the current token in reverse. -/
def splitTokens : List Char → List Char → List String
  | [], acc => if acc = [] then [] else [String.mk acc.reverse]
  | c :: rest, acc =>
      if c = ' ' then
        if acc = [] then splitTokens rest []
        else String.mk acc.reverse :: splitTokens rest []
      else splitTokens rest (asciiLower c :: acc)

/-- Modelled from the spec: normalization and tokenization of the input
text — case-fold and split on whitespace. -/
def tokenize (text : String) : List String :=
  splitTokens text.data []

/-- Modelled from the spec: a template's score against the input tokens —
each synonym present among the tokens contributes, weighted by its length
so that longer, more distinctive synonyms score higher. -/
def templateScore (tokens : List String) (t : Template) : Nat :=
  ((t.synonyms.filter (fun s => decide (s ∈ tokens))).map String.length).sum

/-- Modelled from the spec: choice of the winning template — the
highest-scoring entry among those matching at all (score above zero), with
exact ties going to the most recently registered (later) entry. -/
def bestTemplate (tokens : List String) (ts : List Template) : Option Template :=
  (ts.filter (fun t => decide (0 < templateScore tokens t))).foldl
    (fun acc t =>
      match acc with
      | none => some t
      | some u => if templateScore tokens u > templateScore tokens t then some u else some t)
    none

/-- Modelled from the spec: direct per-field vocabulary lookup — the first
input token that is an explicit vocabulary term of the field gives the
field's value. -/
def vocabValue (f : FieldDef) (tokens : List String) : Option (List Char) :=
  tokens.findSome? (fun tok => alookup f.vocab tok)

/-- Modelled from the spec: the value resolved for one field — an explicit
vocabulary match always takes precedence; otherwise the winning template's
override for the field applies; otherwise the field's default code. -/
def resolveField (f : FieldDef) (tokens : List String) (tmpl : Option Template) :
    List Char :=
  match vocabValue f tokens with
  | some v => v
  | none =>
      match tmpl with
      | some t =>
          match alookup t.overrides f.name with
          | some v => v
          | none => f.defaultCode
      | none => f.defaultCode

/-- NameResolver.resolve, modelled from the spec: tokenize the text, pick
the winning template, and resolve every schema field, yielding a record
with every field present (best guess, never failing). -/
def resolve (sch : Schema) (templates : List Template) (text : String) : FieldRecord :=
  let tokens := tokenize text
  let tmpl := bestTemplate tokens templates
  sch.fields.map (fun f => (f.name, resolveField f tokens tmpl))

/-- The all-default record representing unknown/unspecified. -/
def defaultRecord (sch : Schema) : FieldRecord :=
  sch.fields.map (fun f => (f.name, f.defaultCode))

/-- Modelled from the spec: composeFromText — resolve the free text to a
best-guess record and compose it; total by construction. -/
def composeFromText (sch : Schema) (templates : List Template) (text : String)
    (paddingPx : Int) : ComposedSymbol :=
  compose sch (resolve sch templates text) paddingPx

/- ========================================================================
   Concrete fixtures used to instantiate the theorems. -/

/-- A concrete frame-like asset anchored at the origin. -/
def frameAsset : GraphicAsset := ⟨⟨0, 0, 10, 10⟩, 0, 0, 0⟩

/-- A concrete modifier-like asset anchored away from the origin. -/
def markAsset : GraphicAsset := ⟨⟨0, 0, 4, 4⟩, 20, 20, 1⟩

/-- A concrete one-character affiliation field. -/
def affiliationField : FieldDef :=
  ⟨"affiliation", 1, ['0', '1', '2'], [['0'], ['1']], fun _ => [frameAsset],
   [frameAsset], ['0'], [("friendly", ['1'])]⟩

/-- A concrete one-character echelon field. -/
def echelonField : FieldDef :=
  ⟨"echelon", 1, ['0', '1', '2'], [['0'], ['2']], fun _ => [markAsset],
   [markAsset], ['0'], [("platoon", ['2'])]⟩

/-- A concrete two-field schema with a 100 by 100 canonical canvas. -/
def tinySchema : Schema := ⟨[affiliationField, echelonField], ⟨0, 0, 100, 100⟩⟩

/-- A concrete template whose override of the affiliation field differs from
the explicit vocabulary value for the token it matches. -/
def tinyTemplate : Template := ⟨"friendly unit", ["friendly"], [("affiliation", ['0'])]⟩

/- ========================================================================
   Theorems. -/

/-- C8: the nested-path store does not satisfy the get/set round-trip.  On
the failing input — an empty store, path segment list ["a"], contents 42,
create_if_nonexistent true — set succeeds and stores the value, but
get_contents_at_path is a bare `pass` stub and returns none rather than the
stored contents. -/
theorem C8_get_set_roundtrip_fails :
    set_contents_at_path ([] : List (String × JTree Nat)) [] "a" 42 true
      = Except.ok ([("a", JTree.leaf 42)], 0)
    ∧ get_contents_at_path [("a", JTree.leaf (42 : Nat))] ["a"] ≠ some 42 := by
  constructor
  · rfl
  · intro h
    simp [get_contents_at_path] at h

/-- C10 counterexample: a path with a missing intermediate segment on which
set with create_if_nonexistent=false leaves the store value-unchanged — the
store binds "b" to 1, the path is ["a", "b"] with contents 1, segment "a"
is missing and is skipped, and the final write re-binds "b" to the value it
already held, so the resulting store equals the original. -/
theorem C10_unchanged_counterexample :
    lookupKey [("b", JTree.leaf (1 : Nat))] "a" = none
    ∧ set_contents_at_path [("b", JTree.leaf (1 : Nat))] ["a"] "b" 1 false
        = Except.ok ([("b", JTree.leaf 1)], 1) :=
  ⟨rfl, rfl⟩

/-- C10 (amended): with create_if_nonexistent=false, whenever every existing
intermediate segment entered by the traversal holds a nested object, set
does not raise: it skips each missing intermediate segment without
descending, reports each one only by a printed message (the count returned
equals the number of skipped segments), and still writes the final path
segment as a child of the last node the traversal reached. -/
theorem C10_set_nonatomic_write {α : Type} (contents : α) (lastSeg : String)
    (front : List String) (node : List (String × JTree α))
    (h : cleanTraversal front node = true) :
    set_contents_at_path node front lastSeg contents false
      = Except.ok (writeAtReached contents lastSeg front node, skippedCount front node) := by
  show setAux false contents front lastSeg node = _
  induction front generalizing node with
  | nil => simp [setAux, writeAtReached, skippedCount]
  | cons seg rest ih =>
    cases hk : lookupKey node seg with
    | none =>
      have h' : cleanTraversal rest node = true := by
        simpa [cleanTraversal, hk] using h
      simp [setAux, writeAtReached, skippedCount, hk, ih node h', Except.map]
    | some t =>
      cases t with
      | obj child =>
        have h' : cleanTraversal rest child = true := by
          simpa [cleanTraversal, hk] using h
        simp [setAux, writeAtReached, skippedCount, hk, ih child h', Except.map]
      | leaf a =>
        exfalso
        simp [cleanTraversal, hk] at h

/-- C10 witness: the amended theorem applied at a concrete store whose only
intermediate segment "a" is missing while "x" exists as a nested object. -/
theorem C10_set_nonatomic_write_witness :
    cleanTraversal ["a", "x"] [("x", JTree.obj ([] : List (String × JTree Nat)))] = true
    ∧ set_contents_at_path [("x", JTree.obj ([] : List (String × JTree Nat)))]
        ["a", "x"] "c" 5 false
        = Except.ok ([("x", JTree.obj [("c", JTree.leaf 5)])], 1) := by
  refine ⟨rfl, ?_⟩
  have h := C10_set_nonatomic_write (α := Nat) 5 "c" ["a", "x"]
      [("x", JTree.obj [])] rfl
  simpa [writeAtReached, skippedCount, lookupKey, updateKey] using h

/-- C9: the exposed SVG-string operations return the empty string, not an
error or an exception, whenever the underlying symbol construction yields
None — for both the SIDC-based and the name-based operation. -/
theorem C9_none_symbol_yields_empty_string {Sym : Type}
    (create_from_sidc : String → Option Sym) (name_to_symbol : String → Option Sym)
    (get_svg : Sym → Int → String) (sidc name_string : String) (p : Int)
    (h1 : create_from_sidc sidc = none) (h2 : name_to_symbol name_string = none) :
    get_symbol_svg_string_from_sidc create_from_sidc get_svg sidc p = ""
    ∧ get_symbol_svg_string_from_name name_to_symbol get_svg name_string p = "" := by
  constructor
  · simp [get_symbol_svg_string_from_sidc, h1]
  · simp [get_symbol_svg_string_from_name, h2]

/-- C9 witness: the theorem applied to constructors that return None on the
concrete inputs. -/
theorem C9_none_symbol_yields_empty_string_witness :
    (fun _ : String => (none : Option Unit)) "30031000001211000000" = none
    ∧ get_symbol_svg_string_from_sidc (fun _ : String => (none : Option Unit))
        (fun _ _ => "svg") "30031000001211000000" 4 = ""
    ∧ get_symbol_svg_string_from_name (fun _ : String => (none : Option Unit))
        (fun _ _ => "svg") "friendly infantry" 4 = "" := by
  refine ⟨rfl, ?_, ?_⟩
  · exact (C9_none_symbol_yields_empty_string (fun _ => none) (fun _ => none)
      (fun _ _ => "svg") "30031000001211000000" "friendly infantry" 4 rfl rfl).1
  · exact (C9_none_symbol_yields_empty_string (fun _ => none) (fun _ => none)
      (fun _ _ => "svg") "30031000001211000000" "friendly infantry" 4 rfl rfl).2

/-- Inversion of a successful per-field decode: the code is the chunk itself,
it is in the field's enumeration, and its characters are in the alphabet. -/
theorem decodeField_ok_inv {f : FieldDef} {chunk code : List Char}
    (h : decodeField f chunk = Except.ok code) :
    code = chunk ∧ chunk ∈ f.codes ∧ ∀ c ∈ chunk, c ∈ f.alphabet := by
  simp only [decodeField] at h
  split at h
  case isTrue halpha =>
    split at h
    case isTrue hmem =>
      refine ⟨by cases h; rfl, hmem, ?_⟩
      intro c hc
      have := List.all_eq_true.mp halpha c hc
      simpa using this
    case isFalse hmem => cases h
  case isFalse halpha => cases h

/-- A record produced by positional decode encodes back to the very string it
was decoded from, provided the string has the schema's exact length. -/
theorem encodeFields_of_decodeFields (fs : List FieldDef) (cs : List Char)
    (r : FieldRecord)
    (hlen : cs.length = (fs.map (fun f => f.width)).sum)
    (h : decodeFields fs cs = Except.ok r) :
    encodeFields fs r = Except.ok cs := by
  induction fs generalizing cs r with
  | nil =>
    simp only [decodeFields] at h
    cases h
    have hnil : cs = [] := by
      apply List.eq_nil_of_length_eq_zero
      simpa using hlen
    subst hnil
    rfl
  | cons f fs ih =>
    simp only [decodeFields] at h
    cases hd : decodeField f (cs.take f.width) with
    | error e => rw [hd] at h; cases h
    | ok code =>
      rw [hd] at h
      cases ht : decodeFields fs (cs.drop f.width) with
      | error e => rw [ht] at h; simp [Except.map] at h
      | ok r' =>
        rw [ht] at h
        simp only [Except.map] at h
        cases h
        obtain ⟨hcode, hmem, _⟩ := decodeField_ok_inv hd
        subst hcode
        have hlen' : (cs.drop f.width).length = (fs.map (fun f => f.width)).sum := by
          simp only [List.map_cons, List.sum_cons] at hlen
          simp [List.length_drop]
          omega
        have henc := ih (cs.drop f.width) r' hlen' ht
        simp [encodeFields, hmem, henc, Except.map, List.take_append_drop]

/-- C1: codec round-trip — any record produced by decode on an accepted SIDC
encodes back to exactly that SIDC, and decoding the encoded form returns the
same record (canonical form, no lossy normalization at this layer). -/
theorem C1_codec_roundtrip (sch : Schema) (s : List Char) (r : FieldRecord)
    (h : decode sch s = Except.ok r) :
    encode sch r = Except.ok s
    ∧ ∀ t, encode sch r = Except.ok t → decode sch t = Except.ok r := by
  have hlen : s.length = sch.totalLength := by
    by_contra hne
    simp [decode, hne] at h
  have hd : decodeFields sch.fields s = Except.ok r := by
    simpa [decode, hlen] using h
  have henc : encode sch r = Except.ok s :=
    encodeFields_of_decodeFields sch.fields s r
      (by simpa [Schema.totalLength] using hlen) hd
  refine ⟨henc, ?_⟩
  intro t ht
  rw [henc] at ht
  cases ht
  exact h

/-- C1 witness: the round trip on a concrete accepted two-character SIDC of
the concrete schema. -/
theorem C1_codec_roundtrip_witness :
    decode tinySchema ['1', '2']
      = Except.ok [("affiliation", ['1']), ("echelon", ['2'])]
    ∧ encode tinySchema [("affiliation", ['1']), ("echelon", ['2'])]
        = Except.ok ['1', '2'] := by
  have hdec : decode tinySchema ['1', '2']
      = Except.ok [("affiliation", ['1']), ("echelon", ['2'])] := by rfl
  exact ⟨hdec, (C1_codec_roundtrip tinySchema ['1', '2'] _ hdec).1⟩

/-- Positional decode succeeds exactly when every per-field chunk passes its
own alphabet and enumeration checks — per-field only, no cross-field
condition. -/
theorem decodeFields_isOk_iff (fs : List FieldDef) (cs : List Char) :
    (∃ r, decodeFields fs cs = Except.ok r)
      ↔ ∀ p ∈ fieldChunks fs cs, (∀ c ∈ p.2, c ∈ p.1.alphabet) ∧ p.2 ∈ p.1.codes := by
  induction fs generalizing cs with
  | nil => simp [decodeFields, fieldChunks]
  | cons f fs ih =>
    simp only [fieldChunks, List.mem_cons, forall_eq_or_imp]
    constructor
    · rintro ⟨r, hr⟩
      simp only [decodeFields] at hr
      cases hd : decodeField f (cs.take f.width) with
      | error e => rw [hd] at hr; cases hr
      | ok code =>
        rw [hd] at hr
        obtain ⟨hcode, hmem, halpha⟩ := decodeField_ok_inv hd
        refine ⟨⟨halpha, hmem⟩, ?_⟩
        apply (ih (cs.drop f.width)).mp
        cases ht : decodeFields fs (cs.drop f.width) with
        | error e => rw [ht] at hr; simp [Except.map] at hr
        | ok r' => exact ⟨r', rfl⟩
    · rintro ⟨⟨halpha, hmem⟩, hrest⟩
      obtain ⟨r', hr'⟩ := (ih (cs.drop f.width)).mpr hrest
      refine ⟨(f.name, cs.take f.width) :: r', ?_⟩
      have hall : (cs.take f.width).all (fun c => decide (c ∈ f.alphabet)) = true := by
        apply List.all_eq_true.mpr
        intro c hc
        simpa using halpha c hc
      simp [decodeFields, decodeField, hall, hmem, hr', Except.map]

/-- Positional decode never reports BadLength: length is checked before
slicing, and per-field validation only reports BadAlphabet or UnknownCode. -/
theorem decodeFields_ne_badLength (fs : List FieldDef) (cs : List Char) :
    decodeFields fs cs ≠ Except.error DecodeError.BadLength := by
  induction fs generalizing cs with
  | nil => simp [decodeFields]
  | cons f fs ih =>
    simp only [decodeFields]
    cases hd : decodeField f (cs.take f.width) with
    | error e =>
      have he : e ≠ DecodeError.BadLength := by
        simp only [decodeField] at hd
        split at hd
        · split at hd
          · cases hd
          · cases hd; simp
        · cases hd; simp
      simpa using he
    | ok code =>
      cases ht : decodeFields fs (cs.drop f.width) with
      | error e =>
        have := ih (cs.drop f.width)
        rw [ht] at this
        simp [Except.map]
        intro hcontra
        exact this (by rw [hcontra])
      | ok r' => simp [Except.map]

/-- C2: decode fails exactly when the length does not match the schema's
fixed length, a character falls outside the allowed alphabet of its field
span, or a sliced code is not in the field's enumeration; otherwise it
returns a FieldRecord; the per-chunk characterisation shows no cross-field
validation happens, and BadLength is reported exactly for wrong lengths. -/
theorem C2_decode_error_characterisation (sch : Schema) (s : List Char) :
    ((∃ r, decode sch s = Except.ok r)
      ↔ s.length = sch.totalLength
        ∧ ∀ p ∈ fieldChunks sch.fields s,
            (∀ c ∈ p.2, c ∈ p.1.alphabet) ∧ p.2 ∈ p.1.codes)
    ∧ (decode sch s = Except.error DecodeError.BadLength
      ↔ s.length ≠ sch.totalLength) := by
  constructor
  · constructor
    · rintro ⟨r, hr⟩
      have hlen : s.length = sch.totalLength := by
        by_contra hne
        simp [decode, hne] at hr
      refine ⟨hlen, (decodeFields_isOk_iff sch.fields s).mp ⟨r, ?_⟩⟩
      simpa [decode, hlen] using hr
    · rintro ⟨hlen, hall⟩
      obtain ⟨r, hr⟩ := (decodeFields_isOk_iff sch.fields s).mpr hall
      exact ⟨r, by simp [decode, hlen, hr]⟩
  · constructor
    · intro h
      by_contra hlen
      rw [decode, if_pos hlen] at h
      exact decodeFields_ne_badLength sch.fields s h
    · intro h
      simp [decode, h]

/-- C2 witness: the characterisation applied at concrete inputs of the
concrete schema — an accepted SIDC and a wrong-length one. -/
theorem C2_decode_error_characterisation_witness :
    (∃ r, decode tinySchema ['1', '2'] = Except.ok r)
    ∧ decode tinySchema ['1'] = Except.error DecodeError.BadLength := by
  constructor
  · apply (C2_decode_error_characterisation tinySchema ['1', '2']).1.mpr
    constructor
    · rfl
    · intro p hp
      simp only [tinySchema, fieldChunks, affiliationField, echelonField,
        List.mem_cons, List.not_mem_nil, or_false] at hp
      rcases hp with h | h <;> subst h <;> refine ⟨?_, by decide⟩ <;>
        intro c hc <;> simp_all
  · apply (C2_decode_error_characterisation tinySchema ['1']).2.mpr
    decide

/-- If every chunk passes its alphabet check but some chunk's code is not in
its field's enumeration, positional decode reports UnknownCode for some
field. -/
theorem decodeFields_unknownCode (fs : List FieldDef) (cs : List Char)
    (halpha : ∀ p ∈ fieldChunks fs cs, ∀ c ∈ p.2, c ∈ p.1.alphabet)
    (hbad : ∃ p ∈ fieldChunks fs cs, p.2 ∉ p.1.codes) :
    ∃ g, decodeFields fs cs = Except.error (DecodeError.UnknownCode g) := by
  induction fs generalizing cs with
  | nil =>
    obtain ⟨p, hp, _⟩ := hbad
    simp [fieldChunks] at hp
  | cons f fs ih =>
    have halphahd : ∀ c ∈ cs.take f.width, c ∈ f.alphabet :=
      halpha (f, cs.take f.width) (by simp [fieldChunks])
    have hall : (cs.take f.width).all (fun c => decide (c ∈ f.alphabet)) = true := by
      apply List.all_eq_true.mpr
      intro c hc
      simpa using halphahd c hc
    by_cases hmem : cs.take f.width ∈ f.codes
    · have hbad' : ∃ p ∈ fieldChunks fs (cs.drop f.width), p.2 ∉ p.1.codes := by
        obtain ⟨p, hp, hpc⟩ := hbad
        simp only [fieldChunks, List.mem_cons] at hp
        rcases hp with h | h
        · exfalso; subst h; exact hpc hmem
        · exact ⟨p, h, hpc⟩
      have halpha' : ∀ p ∈ fieldChunks fs (cs.drop f.width), ∀ c ∈ p.2, c ∈ p.1.alphabet := by
        intro p hp
        exact halpha p (by simp [fieldChunks, hp])
      obtain ⟨g, hg⟩ := ih (cs.drop f.width) halpha' hbad'
      exact ⟨g, by simp [decodeFields, decodeField, hall, hmem, hg, Except.map]⟩
    · exact ⟨f.name, by simp [decodeFields, decodeField, hall, hmem]⟩

/-- When some chunk's code is not in its field's enumeration, composing the
sliced record collects at least one non-fatal diagnostic. -/
theorem placeFields_diag_of_unknown (fs : List FieldDef) (cs : List Char)
    (hbad : ∃ p ∈ fieldChunks fs cs, p.2 ∉ p.1.codes) :
    (placeFields fs (sliceRecord fs cs)).2 ≠ [] := by
  induction fs generalizing cs with
  | nil =>
    obtain ⟨p, hp, _⟩ := hbad
    simp [fieldChunks] at hp
  | cons f fs ih =>
    by_cases hmem : cs.take f.width ∈ f.codes
    · have hbad' : ∃ p ∈ fieldChunks fs (cs.drop f.width), p.2 ∉ p.1.codes := by
        obtain ⟨p, hp, hpc⟩ := hbad
        simp only [fieldChunks, List.mem_cons] at hp
        rcases hp with h | h
        · exfalso; subst h; exact hpc hmem
        · exact ⟨p, h, hpc⟩
      have := ih (cs.drop f.width) hbad'
      simp [placeFields, sliceRecord, resolveFieldAssets, hmem]
      intro hcontra
      exact this (by simp [hcontra])
    · simp [placeFields, sliceRecord, resolveFieldAssets, hmem]

/-- C3: for every syntactically decodable SIDC (valid length and alphabet),
composeFromSIDC returns a ComposedSymbol rather than failing; when some
field's code fails the enumeration lookup, the symbol carries a non-fatal
diagnostic for the degraded field while decode on the same input reports
DecodeError.UnknownCode. -/
theorem C3_compose_best_effort (sch : Schema) (s : List Char) (paddingPx : Int)
    (hlen : s.length = sch.totalLength)
    (halpha : ∀ p ∈ fieldChunks sch.fields s, ∀ c ∈ p.2, c ∈ p.1.alphabet) :
    ∃ cs, composeFromSIDC sch s paddingPx = Except.ok cs
      ∧ ((∃ p ∈ fieldChunks sch.fields s, p.2 ∉ p.1.codes) →
          (∃ g, decode sch s = Except.error (DecodeError.UnknownCode g))
          ∧ cs.diagnostics ≠ []) := by
  have hall : (fieldChunks sch.fields s).all
      (fun p => p.2.all (fun c => decide (c ∈ p.1.alphabet))) = true := by
    apply List.all_eq_true.mpr
    intro p hp
    apply List.all_eq_true.mpr
    intro c hc
    simpa using halpha p hp c hc
  refine ⟨compose sch (sliceRecord sch.fields s) paddingPx, ?_, ?_⟩
  · simp [composeFromSIDC, hlen, hall]
  · intro hbad
    constructor
    · obtain ⟨g, hg⟩ := decodeFields_unknownCode sch.fields s halpha hbad
      exact ⟨g, by simp [decode, hlen, hg]⟩
    · simpa [compose] using placeFields_diag_of_unknown sch.fields s hbad

/-- C3 witness: the concrete SIDC "22" on the concrete schema has valid
length and alphabet, its affiliation code fails the enumeration, decode
reports UnknownCode, and composeFromSIDC still composes with a diagnostic. -/
theorem C3_compose_best_effort_witness :
    decode tinySchema ['2', '2']
      = Except.error (DecodeError.UnknownCode "affiliation")
    ∧ ∃ cs, composeFromSIDC tinySchema ['2', '2'] 4 = Except.ok cs
        ∧ cs.diagnostics ≠ [] := by
  have halpha : ∀ p ∈ fieldChunks tinySchema.fields ['2', '2'],
      ∀ c ∈ p.2, c ∈ p.1.alphabet := by
    intro p hp
    simp only [tinySchema, fieldChunks, affiliationField, echelonField,
      List.mem_cons, List.not_mem_nil, or_false] at hp
    rcases hp with h | h <;> subst h <;> intro c hc <;> simp_all
  have hbad : ∃ p ∈ fieldChunks tinySchema.fields ['2', '2'], p.2 ∉ p.1.codes := by
    refine ⟨(affiliationField, ['2']), ?_, by decide⟩
    simp [tinySchema, fieldChunks, affiliationField, echelonField]
  obtain ⟨cs, hcs, himp⟩ :=
    C3_compose_best_effort tinySchema ['2', '2'] 4 rfl halpha
  refine ⟨?_, cs, hcs, (himp hbad).2⟩
  rfl

/-- Box containment is transitive. -/
theorem Box.containsBox_trans {a b c : Box} (h1 : a.containsBox b)
    (h2 : b.containsBox c) : a.containsBox c := by
  simp only [Box.containsBox] at *
  omega

/-- The union of two boxes contains the left one. -/
theorem Box.union_contains_left (a b : Box) : (a.union b).containsBox a := by
  simp only [Box.union, Box.containsBox]
  omega

/-- The union of two boxes contains the right one. -/
theorem Box.union_contains_right (a b : Box) : (a.union b).containsBox b := by
  simp only [Box.union, Box.containsBox]
  omega

/-- Folding unions over a list yields a box containing the accumulator. -/
theorem foldl_union_contains_init (bs : List Box) (a : Box) :
    (bs.foldl Box.union a).containsBox a := by
  induction bs generalizing a with
  | nil => simp [Box.containsBox]
  | cons b bs ih =>
    exact Box.containsBox_trans (ih (a.union b)) (Box.union_contains_left a b)

/-- Folding unions over a list yields a box containing every member. -/
theorem foldl_union_contains_mem (bs : List Box) (a b : Box) (hb : b ∈ bs) :
    (bs.foldl Box.union a).containsBox b := by
  induction bs generalizing a with
  | nil => cases hb
  | cons c cs ih =>
    rcases List.mem_cons.mp hb with h | h
    · subst h
      exact Box.containsBox_trans (foldl_union_contains_init cs (a.union b))
        (Box.union_contains_right a b)
    · exact ih (a.union c) h

/-- The union bounding box of a list of placed extents contains each of
them. -/
theorem unionBoxes_contains {bs : List Box} {u : Box}
    (hu : unionBoxes bs = some u) : ∀ b ∈ bs, u.containsBox b := by
  intro b hb
  cases bs with
  | nil => cases hb
  | cons c cs =>
    simp only [unionBoxes, Option.some.injEq] at hu
    subst hu
    rcases List.mem_cons.mp hb with h | h
    · subst h; exact foldl_union_contains_init cs b
    · exact foldl_union_contains_mem cs c b h

/-- Expanding a box by a nonnegative padding contains the box. -/
theorem Box.expand_contains (b : Box) (p : Int) (hp : 0 ≤ p) :
    (b.expand p).containsBox b := by
  simp only [Box.expand, Box.containsBox]
  omega

/-- C5: padding policy of compose — with paddingPx >= 0 the canvas is the
union bounding box of the placed assets expanded by paddingPx on each side
(and hence contains every placed asset); with paddingPx < 0 no cropping is
performed and the canvas is the schema's fixed canonical canvas, regardless
of content bounds. -/
theorem C5_padding_policy (sch : Schema) (r : FieldRecord) (paddingPx : Int)
    (b : Box) (hu : unionBoxes (placeFields sch.fields r).1 = some b) :
    (0 ≤ paddingPx →
      (compose sch r paddingPx).canvas = b.expand paddingPx
      ∧ ∀ x ∈ (compose sch r paddingPx).placed,
          (compose sch r paddingPx).canvas.containsBox x)
    ∧ (paddingPx < 0 → (compose sch r paddingPx).canvas = sch.canonicalCanvas) := by
  constructor
  · intro hp
    have hcanvas : (compose sch r paddingPx).canvas = b.expand paddingPx := by
      simp [compose, hu, hp]
    refine ⟨hcanvas, ?_⟩
    intro x hx
    have hxmem : x ∈ (placeFields sch.fields r).1 := by
      simpa [compose] using hx
    rw [hcanvas]
    exact Box.containsBox_trans (Box.expand_contains b paddingPx hp)
      (unionBoxes_contains hu x hxmem)
  · intro hp
    have hnp : ¬ 0 ≤ paddingPx := by omega
    simp [compose, hnp]

/-- C5 witness: the policy applied to the record decoded from the concrete
SIDC "12" at paddings 4 and -1, with the concrete union bounding box. -/
theorem C5_padding_policy_witness :
    unionBoxes (placeFields tinySchema.fields
        [("affiliation", ['1']), ("echelon", ['2'])]).1
      = some ⟨0, 0, 24, 24⟩
    ∧ (compose tinySchema [("affiliation", ['1']), ("echelon", ['2'])] 4).canvas
        = Box.expand ⟨0, 0, 24, 24⟩ 4
    ∧ (compose tinySchema [("affiliation", ['1']), ("echelon", ['2'])] (-1)).canvas
        = tinySchema.canonicalCanvas := by
  have hu : unionBoxes (placeFields tinySchema.fields
      [("affiliation", ['1']), ("echelon", ['2'])]).1 = some ⟨0, 0, 24, 24⟩ := by
    rfl
  have h := C5_padding_policy tinySchema
    [("affiliation", ['1']), ("echelon", ['2'])] 4 ⟨0, 0, 24, 24⟩ hu
  have h' := C5_padding_policy tinySchema
    [("affiliation", ['1']), ("echelon", ['2'])] (-1) ⟨0, 0, 24, 24⟩ hu
  exact ⟨hu, (h.1 (by omega)).1, h'.2 (by omega)⟩

/-- C6: padding monotonicity — for a fixed record and paddings
0 <= p1 < p2, the canvas extents at p2 are at least those at p1. -/
theorem C6_padding_monotone (sch : Schema) (r : FieldRecord) (p1 p2 : Int)
    (h0 : 0 ≤ p1) (h12 : p1 < p2) (b : Box)
    (hu : unionBoxes (placeFields sch.fields r).1 = some b) :
    Box.width (compose sch r p1).canvas ≤ Box.width (compose sch r p2).canvas
    ∧ Box.height (compose sch r p1).canvas ≤ Box.height (compose sch r p2).canvas := by
  have h02 : 0 ≤ p2 := by omega
  have e1 : (compose sch r p1).canvas = b.expand p1 := by simp [compose, hu, h0]
  have e2 : (compose sch r p2).canvas = b.expand p2 := by simp [compose, hu, h02]
  rw [e1, e2]
  simp only [Box.expand, Box.width, Box.height]
  omega

/-- C6 witness: the monotonicity applied to the concrete record at paddings
2 and 5. -/
theorem C6_padding_monotone_witness :
    unionBoxes (placeFields tinySchema.fields
        [("affiliation", ['1']), ("echelon", ['2'])]).1
      = some ⟨0, 0, 24, 24⟩
    ∧ Box.width (compose tinySchema
          [("affiliation", ['1']), ("echelon", ['2'])] 2).canvas
        ≤ Box.width (compose tinySchema
          [("affiliation", ['1']), ("echelon", ['2'])] 5).canvas
    ∧ Box.height (compose tinySchema
          [("affiliation", ['1']), ("echelon", ['2'])] 2).canvas
        ≤ Box.height (compose tinySchema
          [("affiliation", ['1']), ("echelon", ['2'])] 5).canvas := by
  have hu : unionBoxes (placeFields tinySchema.fields
      [("affiliation", ['1']), ("echelon", ['2'])]).1 = some ⟨0, 0, 24, 24⟩ := by
    rfl
  have h := C6_padding_monotone tinySchema
    [("affiliation", ['1']), ("echelon", ['2'])] 2 5 (by omega) (by omega)
    ⟨0, 0, 24, 24⟩ hu
  exact ⟨hu, h.1, h.2⟩

/-- With no template scoring above zero, no winning template is chosen. -/
theorem bestTemplate_none (tokens : List String) (ts : List Template)
    (h : ∀ t ∈ ts, templateScore tokens t = 0) :
    bestTemplate tokens ts = none := by
  have hfil : ts.filter (fun t => decide (0 < templateScore tokens t)) = [] := by
    induction ts with
    | nil => rfl
    | cons t ts ih =>
      have ht : templateScore tokens t = 0 := h t (by simp)
      have hrest : ∀ u ∈ ts, templateScore tokens u = 0 := by
        intro u hu
        exact h u (by simp [hu])
      simp [List.filter, ht, ih hrest]
  simp [bestTemplate, hfil]

/-- C4: composeFromText never fails — resolve always returns a record with
every schema field present in order; composeFromText is the total
composition of that record; and on wholly unmatchable input (no vocabulary
match for any field and no template scoring above zero) the resolved
record is the all-default record representing unknown/unspecified. -/
theorem C4_compose_from_text_total (sch : Schema) (templates : List Template)
    (text : String) (paddingPx : Int) :
    ((resolve sch templates text).map Prod.fst = sch.fields.map FieldDef.name)
    ∧ composeFromText sch templates text paddingPx
        = compose sch (resolve sch templates text) paddingPx
    ∧ ((∀ f ∈ sch.fields, vocabValue f (tokenize text) = none) →
        (∀ t ∈ templates, templateScore (tokenize text) t = 0) →
        resolve sch templates text = defaultRecord sch) := by
  refine ⟨?_, rfl, ?_⟩
  · simp [resolve]
  · intro hvocab htmpl
    have hbt : bestTemplate (tokenize text) templates = none :=
      bestTemplate_none (tokenize text) templates htmpl
    unfold resolve defaultRecord
    apply List.map_congr_left
    intro f hf
    simp [resolveField, hbt, hvocab f hf]

/-- C4 witness: the theorem applied to the concrete schema and template on
input text matching nothing, giving the all-default record. -/
theorem C4_compose_from_text_total_witness :
    (∀ f ∈ tinySchema.fields, vocabValue f (tokenize "qq zz") = none)
    ∧ (∀ t ∈ [tinyTemplate], templateScore (tokenize "qq zz") t = 0)
    ∧ resolve tinySchema [tinyTemplate] "qq zz" = defaultRecord tinySchema
    ∧ ((resolve tinySchema [tinyTemplate] "qq zz").map Prod.fst
        = tinySchema.fields.map FieldDef.name) := by
  have hvocab : ∀ f ∈ tinySchema.fields, vocabValue f (tokenize "qq zz") = none := by
    intro f hf
    simp only [tinySchema, List.mem_cons, List.not_mem_nil, or_false] at hf
    rcases hf with h | h <;> subst h <;> decide
  have htmpl : ∀ t ∈ [tinyTemplate], templateScore (tokenize "qq zz") t = 0 := by
    intro t ht
    simp only [List.mem_cons, List.not_mem_nil, or_false] at ht
    subst ht
    decide
  have h := C4_compose_from_text_total tinySchema [tinyTemplate] "qq zz" 4
  exact ⟨hvocab, htmpl, h.2.2 hvocab htmpl, h.1⟩

/-- C7: resolver precedence — whenever an input token is an explicit
vocabulary term for a schema field, the resolved record contains that
term's value for the field, whatever templates are registered (in
particular, not a winning template's default for the field). -/
theorem C7_vocab_precedence (sch : Schema) (templates : List Template)
    (text : String) (f : FieldDef) (v : List Char)
    (hf : f ∈ sch.fields)
    (hv : vocabValue f (tokenize text) = some v) :
    (f.name, v) ∈ resolve sch templates text := by
  unfold resolve
  apply List.mem_map.mpr
  exact ⟨f, hf, by simp [resolveField, hv]⟩

/-- C7 witness: on the text "Friendly platoon", the token "friendly" is an
explicit vocabulary term of the affiliation field with value "1", the
registered template matches the same token and would set the same field to
"0", and the resolved record carries the vocabulary value "1". -/
theorem C7_vocab_precedence_witness :
    vocabValue affiliationField (tokenize "Friendly platoon") = some ['1']
    ∧ 0 < templateScore (tokenize "Friendly platoon") tinyTemplate
    ∧ alookup tinyTemplate.overrides "affiliation" = some ['0']
    ∧ ("affiliation", ['1']) ∈ resolve tinySchema [tinyTemplate] "Friendly platoon" := by
  refine ⟨by decide, by decide, rfl, ?_⟩
  have h := C7_vocab_precedence tinySchema [tinyTemplate] "Friendly platoon"
    affiliationField ['1'] (by simp [tinySchema]) (by decide)
  simpa [affiliationField] using h
